import Mathlib

/-!
Verification of the error taxonomy and message-formatting contract of
`nextcord/errors.py`.

The Python values flowing through the error machinery are JSON-ish: strings,
integers, lists and dictionaries.  Dictionaries are modelled as association
lists in insertion order (Python dicts preserve insertion order and have
unique keys).  Python runtime type errors (e.g. calling `.items()` on a
non-dict, or `str + int`) are modelled by `Option`, with `none` standing for
a raised `TypeError`/`AttributeError`.  The `str()` rendering of containers
(lists/dicts) is not modelled and is likewise mapped to `none`; no claim
below touches that corner.
-/

/-- A JSON-ish Python value as used by the error payloads. -/
inductive EVal where
  | str (s : String)
  | num (n : Int)
  | elist (xs : List EVal)
  | edict (fields : List (String × EVal))

/-- Python dict lookup `d[k]` / `d.get(k)` on an insertion-ordered dict:
keys are unique in a real dict, so first match is the match. -/
def lookupField (k : String) : List (String × EVal) → Option EVal
  | [] => none
  | p :: rest => if p.1 = k then some p.2 else lookupField k rest

/-- Value of the last occurrence of key `k` in an item list (helper for the
semantics of Python's `dict(items)` constructor, where later duplicates
override earlier ones). -/
def lastLookup (l : List (String × EVal)) (k : String) : Option EVal :=
  match l with
  | [] => none
  | p :: rest =>
    match lastLookup rest k with
    | some v => some v
    | none => if p.1 = k then some p.2 else none

/-- Python's `dict(items)`: the resulting dict lists each key at its first
occurrence position, holding the value of its last occurrence. -/
def dictOfItems : List (String × EVal) → List (String × EVal)
  | [] => []
  | (k, v) :: rest =>
    (k, (lastLookup rest k).getD v) :: dictOfItems (rest.filter (fun p => p.1 ≠ k))
termination_by l => l.length
decreasing_by
  simp only [List.length_cons]
  exact Nat.lt_succ_of_le (List.length_filter_le _ _)

/-- `x.get('message', '')` for an element `x` of an `_errors` list, as used in
`' '.join(x.get('message', '') for x in _errors)`: a missing field yields the
empty string; a non-dict `x` or a non-string field makes the join raise. -/
def getMessage : EVal → Option String
  | .edict fields =>
    match lookupField "message" fields with
    | none => some ""
    | some (.str s) => some s
    | some _ => none
  | _ => none

/-- The generator `(x.get('message', '') for x in _errors)` run to a list:
fails as soon as one element would make the join raise. -/
def joinMessages : List EVal → Option (List String)
  | [] => some []
  | x :: rest =>
    match getMessage x, joinMessages rest with
    | some s, some t => some (s :: t)
    | _, _ => none

/-- `' '.join(x.get('message', '') for x in _errors)`: requires `_errors` to
be a list; joins the message fields with single spaces. -/
def flattenErrors : EVal → Option String
  | .elist xs => (joinMessages xs).map (fun ms => String.intercalate " " ms)
  | _ => none

/-- The item-accumulation loop of `_flatten_error_dict(d, key)`.  For each
key/value pair: a nested dict containing `_errors` contributes one item with
the space-joined messages; any other nested dict is flattened recursively
under the extended dotted key (and the recursive result is itself passed
through `dict(...)`, as in the source); any non-dict value is stored as-is
under the dotted key.  Note the source computes `new_key = key + '.' + k if
key else k`, so an empty accumulated key contributes no dot. -/
def flattenKV (key : String) : List (String × EVal) → Option (List (String × EVal))
  | [] => some []
  | (k, v) :: rest =>
    let newKey := if key = "" then k else key ++ "." ++ k
    match v with
    | .edict fields =>
      match lookupField "_errors" fields with
      | some e =>
        match flattenErrors e, flattenKV key rest with
        | some s, some t => some ((newKey, EVal.str s) :: t)
        | _, _ => none
      | none =>
        match flattenKV newKey fields, flattenKV key rest with
        | some inner, some t => some (dictOfItems inner ++ t)
        | _, _ => none
    | _ =>
      match flattenKV key rest with
      | some t => some ((newKey, v) :: t)
      | none => none
termination_by l => sizeOf l
decreasing_by all_goals (simp_wf; try omega)

/-- `_flatten_error_dict(d, key)` from the source: accumulate the items and
build a dict from them. -/
def flatten_error_dict (d : List (String × EVal)) (key : String := "") :
    Option (List (String × EVal)) :=
  (flattenKV key d).map dictOfItems

/-- Python `str(v)` as used by `%s` / `format` substitution.  Strings pass
through, integers print in decimal; the repr of containers is not modelled
(treated as a failure, see the header note). -/
def pyStr : EVal → Option String
  | .str s => some s
  | .num n => some (toString n)
  | _ => none

/-- Python truthiness of a JSON-ish value (`if errors:`). -/
def truthy : EVal → Bool
  | .str s => s ≠ ""
  | .num n => n ≠ 0
  | .elist xs => !xs.isEmpty
  | .edict f => !f.isEmpty

/-- The slice of an aiohttp/requests response object that
`HTTPException.__init__` reads: `.status` and `.reason`. -/
structure Response where
  status : Nat
  reason : String

/-- The `message` argument of `HTTPException.__init__`:
`Optional[Union[str, Dict[str, Any]]]` (the `Option` wrapper is external). -/
inductive PyMessage where
  | str (s : String)
  | payload (fields : List (String × EVal))

/-- The attributes an `HTTPException` instance ends up with: `status`,
`code`, `text`, and the formatted message passed to `super().__init__`. -/
structure HTTPExceptionState where
  status : Nat
  code : EVal
  text : String
  msg : String

/-- Python `a or b` for an optional string (`message or ''`):
`None` and the empty string are falsy. -/
def pyOrStr : Option String → String → String
  | none, d => d
  | some s, d => if s = "" then d else s

/-- The tail of `HTTPException.__init__`: format
`'{0.status} {0.reason} (error code: {1})'` plus `': {2}'` when the text is
non-empty, and build the final attribute state.  Fails when `str(code)` is
not modelled (container code values). -/
def mkState (resp : Response) (code : EVal) (text : String) :
    Option HTTPExceptionState :=
  (pyStr code).map (fun cs =>
    { status := resp.status
      code := code
      text := text
      msg := toString resp.status ++ " " ++ resp.reason ++
        " (error code: " ++ cs ++ ")" ++
        (if text = "" then "" else ": " ++ text) })

/-- `'In %s: %s' % t` for each flattened item, run to a list: fails when a
value's `str()` is not modelled. -/
def joinLines : List (String × EVal) → Option (List String)
  | [] => some []
  | t :: rest =>
    match pyStr t.2, joinLines rest with
    | some vs, some ls => some (("In " ++ t.1 ++ ": " ++ vs) :: ls)
    | _, _ => none

/-- `HTTPException.__init__(response, message)`.  A dict message yields
`code = message.get('code', 0)`, `base = message.get('message', '')`, and if
`message.get('errors')` is truthy, the flattened errors are appended to the
base text as `'In %s: %s'` lines joined by newlines; any other message gives
`text = message or ''` and `code = 0`. -/
def HTTPException.make (resp : Response) (message : Option PyMessage) :
    Option HTTPExceptionState :=
  match message with
  | some (.payload d) =>
    let code := (lookupField "code" d).getD (EVal.num 0)
    match (match lookupField "message" d with
           | none => some ""
           | some (.str s) => some s
           | some _ => none : Option String) with
    | none => none
    | some base =>
      match lookupField "errors" d with
      | some e =>
        if truthy e then
          match e with
          | .edict ef =>
            match flatten_error_dict ef "" with
            | some items =>
              match joinLines items with
              | some lines =>
                mkState resp code (base ++ "\n" ++ String.intercalate "\n" lines)
              | none => none
            | none => none
          | _ => none
        else mkState resp code base
      | none => mkState resp code base
  | some (.str s) => mkState resp (EVal.num 0) (pyOrStr (some s) "")
  | none => mkState resp (EVal.num 0) (pyOrStr none "")

/-- The slice of `aiohttp.ClientWebSocketResponse` that
`ConnectionClosed.__init__` reads: `.close_code` (optional). -/
structure ClientWebSocketResponse where
  close_code : Option Int

/-- The attributes a `ConnectionClosed` instance ends up with. -/
structure ConnectionClosedState where
  code : Int
  reason : String
  shard_id : Option Int
  msg : String

/-- Python `a or b` for an optional int (as in
`code or socket.close_code or -1`): `None` and `0` are falsy. -/
def pyOrInt : Option Int → Int → Int
  | none, d => d
  | some n, d => if n = 0 then d else n

/-- Python `f'{x}'` for an `Optional[int]`: `None` renders as `"None"`. -/
def optIntStr : Option Int → String
  | none => "None"
  | some n => toString n

/-- `ConnectionClosed.__init__(socket, *, shard_id, code=None)`:
`self.code = code or socket.close_code or -1`, `self.reason = ''`, and the
message `f'Shard ID {self.shard_id} WebSocket closed with {self.code}'`. -/
def ConnectionClosed.make (socket : ClientWebSocketResponse)
    (shard_id : Option Int) (code : Option Int := none) :
    ConnectionClosedState :=
  let c := pyOrInt code (pyOrInt socket.close_code (-1))
  { code := c
    reason := ""
    shard_id := shard_id
    msg := "Shard ID " ++ optIntStr shard_id ++ " WebSocket closed with " ++
      toString c }

/-- The scan of Python `str.replace(pat, rep)` over the character list, with
the list length as structurally decreasing fuel (each step consumes at least
one character; the patterns used in the source are never empty): at each
position, if the pattern is a prefix, emit the replacement and skip the
pattern, else emit the character and advance by one. -/
def replaceLoop (pat rep : List Char) : Nat → List Char → List Char
  | 0, l => l
  | _ + 1, [] => []
  | fuel + 1, c :: rest =>
    if pat.isPrefixOf (c :: rest) && !pat.isEmpty then
      rep ++ replaceLoop pat rep fuel ((c :: rest).drop pat.length)
    else
      c :: replaceLoop pat rep fuel rest

/-- Python `s.replace(pat, rep)` (leftmost, non-overlapping; only called with
non-empty patterns in the source). -/
def pyReplace (s pat rep : String) : String :=
  ⟨replaceLoop pat.data rep.data s.data.length s.data⟩

/-- One step of Python `str.title()` over ASCII text: an alphabetic character
is uppercased after a non-alphabetic one and lowercased otherwise; the flag
carries whether the previous character was alphabetic.  (Unicode case rules
beyond ASCII are not needed by the permission names.) -/
def pyTitleAux : Bool → List Char → List Char
  | _, [] => []
  | prevAlpha, c :: cs =>
    if c.isAlpha then
      (if prevAlpha then c.toLower else c.toUpper) :: pyTitleAux true cs
    else
      c :: pyTitleAux false cs

/-- Python `s.title()` for ASCII text. -/
def pyTitle (s : String) : String :=
  ⟨pyTitleAux false s.data⟩

/-- The mention clean-up in `ApplicationError.__init__`:
`message.replace('@everyone', '@\u200beveryone').replace('@here', '@\u200bhere')`. -/
def escapeMentions (m : String) : String :=
  pyReplace (pyReplace m "@everyone" "@\u200beveryone") "@here" "@\u200bhere"

/-- `ApplicationError.__init__(message=None, *args)`: a supplied message is
stored mention-escaped; with no message the instance is a bare marker
(no stored message, modelled as `none`). -/
def ApplicationError.make : Option String → Option String
  | some m => some (escapeMentions m)
  | none => none

/-- `ApplicationCheckFailure` adds nothing: construction is inherited from
`ApplicationError`. -/
def ApplicationCheckFailure.make : Option String → Option String :=
  ApplicationError.make

/-- `ApplicationNoPrivateMessage.__init__(message=None)`:
`super().__init__(message or 'This command cannot be used in private messages.')`. -/
def ApplicationNoPrivateMessage.make (message : Option String) :
    Option String :=
  ApplicationCheckFailure.make
    (some (pyOrStr message "This command cannot be used in private messages."))

/-- `ApplicationPrivateMessageOnly.__init__(message=None)`:
`super().__init__(message or 'This command can only be used in private messages.')`. -/
def ApplicationPrivateMessageOnly.make (message : Option String) :
    Option String :=
  ApplicationCheckFailure.make
    (some (pyOrStr message "This command can only be used in private messages."))

/-- Python `lst[-1]` under the guard `len(lst) > 2` (total here; the default
is never reached at call sites). -/
def pyLast (l : List String) : String :=
  (l.getLast?).getD ""

/-- The role-list join of `ApplicationMissingAnyRole` /
`ApplicationBotMissingAnyRole`: more than two items give
`'{}, or {}'.format(", ".join(missing[:-1]), missing[-1])`, otherwise
`' or '.join(missing)`. -/
def joinOrRoles (missing : List String) : String :=
  if missing.length > 2 then
    String.intercalate ", " missing.dropLast ++ ", or " ++ pyLast missing
  else
    String.intercalate " or " missing

/-- The permission-list join of `ApplicationMissingPermissions` /
`ApplicationBotMissingPermissions`: same shape with `and`. -/
def joinAndPerms (missing : List String) : String :=
  if missing.length > 2 then
    String.intercalate ", " missing.dropLast ++ ", and " ++ pyLast missing
  else
    String.intercalate " and " missing

/-- `f"'{role}'"`: a role identifier quoted with single quotes (roles are
taken as strings here; an int Snowflake would render via `str()`). -/
def quoteRole (r : String) : String :=
  "'" ++ r ++ "'"

/-- `ApplicationMissingAnyRole.__init__(missing_roles)`. -/
def ApplicationMissingAnyRole.make (missing_roles : List String) :
    Option String :=
  ApplicationCheckFailure.make
    (some ("You are missing at least one of the required roles: " ++
      joinOrRoles (missing_roles.map quoteRole)))

/-- `ApplicationBotMissingAnyRole.__init__(missing_roles)`. -/
def ApplicationBotMissingAnyRole.make (missing_roles : List String) :
    Option String :=
  ApplicationCheckFailure.make
    (some ("Bot is missing at least one of the required roles: " ++
      joinOrRoles (missing_roles.map quoteRole)))

/-- The permission-name transform
`perm.replace('_', ' ').replace('guild', 'server').title()`. -/
def transformPerm (perm : String) : String :=
  pyTitle (pyReplace (pyReplace perm "_" " ") "guild" "server")

/-- `ApplicationMissingPermissions.__init__(missing_permissions, *args)`. -/
def ApplicationMissingPermissions.make (missing_permissions : List String) :
    Option String :=
  ApplicationCheckFailure.make
    (some ("You are missing " ++
      joinAndPerms (missing_permissions.map transformPerm) ++
      " permission(s) to run this command."))

/-- `ApplicationBotMissingPermissions.__init__(missing_permissions, *args)`. -/
def ApplicationBotMissingPermissions.make (missing_permissions : List String) :
    Option String :=
  ApplicationCheckFailure.make
    (some ("Bot requires " ++
      joinAndPerms (missing_permissions.map transformPerm) ++
      " permission(s) to run this command."))

/-- The exception classes declared in `errors.py` (the file defines
`ApplicationError` twice with identical bodies; the second definition is the
effective one, and both have the same base, so one kind suffices). -/
inductive ErrKind where
  | DiscordException
  | ClientException
  | InvalidCommandType
  | NoMoreItems
  | GatewayNotFound
  | HTTPException
  | Forbidden
  | NotFound
  | DiscordServerError
  | InvalidData
  | InvalidArgument
  | LoginFailure
  | ConnectionClosed
  | PrivilegedIntentsRequired
  | InteractionResponded
  | ApplicationError
  | ApplicationCheckFailure
  | ApplicationCheckAnyFailure
  | ApplicationNoPrivateMessage
  | ApplicationMissingRole
  | ApplicationMissingAnyRole
  | ApplicationBotMissingRole
  | ApplicationBotMissingAnyRole
  | ApplicationMissingPermissions
  | ApplicationBotMissingPermissions
  | ApplicationPrivateMessageOnly
  | ApplicationNotOwner
  | ApplicationNSFWChannelRequired
  deriving DecidableEq, Fintype

/-- The direct base class of each kind, as written in the source
(`DiscordException` extends Python's `Exception`, outside the taxonomy). -/
def parentOf : ErrKind → Option ErrKind
  | .DiscordException => none
  | .ClientException => some .DiscordException
  | .InvalidCommandType => some .ClientException
  | .NoMoreItems => some .DiscordException
  | .GatewayNotFound => some .DiscordException
  | .HTTPException => some .DiscordException
  | .Forbidden => some .HTTPException
  | .NotFound => some .HTTPException
  | .DiscordServerError => some .HTTPException
  | .InvalidData => some .ClientException
  | .InvalidArgument => some .ClientException
  | .LoginFailure => some .ClientException
  | .ConnectionClosed => some .ClientException
  | .PrivilegedIntentsRequired => some .ClientException
  | .InteractionResponded => some .ClientException
  | .ApplicationError => some .DiscordException
  | .ApplicationCheckFailure => some .ApplicationError
  | .ApplicationCheckAnyFailure => some .ApplicationCheckFailure
  | .ApplicationNoPrivateMessage => some .ApplicationCheckFailure
  | .ApplicationMissingRole => some .ApplicationCheckFailure
  | .ApplicationMissingAnyRole => some .ApplicationCheckFailure
  | .ApplicationBotMissingRole => some .ApplicationCheckFailure
  | .ApplicationBotMissingAnyRole => some .ApplicationCheckFailure
  | .ApplicationMissingPermissions => some .ApplicationCheckFailure
  | .ApplicationBotMissingPermissions => some .ApplicationCheckFailure
  | .ApplicationPrivateMessageOnly => some .ApplicationCheckFailure
  | .ApplicationNotOwner => some .ApplicationCheckFailure
  | .ApplicationNSFWChannelRequired => some .ApplicationCheckFailure

/-- A kind together with its (transitive) bases, walking `parentOf` with
enough fuel for the taxonomy's depth (at most 3 levels of bases). -/
def ancestorsFuel : Nat → ErrKind → List ErrKind
  | 0, k => [k]
  | n + 1, k =>
    k :: (match parentOf k with
          | none => []
          | some p => ancestorsFuel n p)

/-- A kind and all its bases inside the taxonomy. -/
def ancestors (k : ErrKind) : List ErrKind :=
  ancestorsFuel 4 k

/-- `isinstance`: an instance of `a` is an instance of `b` iff `b` is `a`
itself or one of its bases. -/
def isSubclassOf (a b : ErrKind) : Bool :=
  (ancestors a).contains b

/-- The Application-error family as listed in the spec: the check-failure
kind and every variant extending it. -/
def applicationFamily : List ErrKind :=
  [.ApplicationCheckFailure, .ApplicationCheckAnyFailure,
   .ApplicationNoPrivateMessage, .ApplicationMissingRole,
   .ApplicationMissingAnyRole, .ApplicationBotMissingRole,
   .ApplicationBotMissingAnyRole, .ApplicationMissingPermissions,
   .ApplicationBotMissingPermissions, .ApplicationPrivateMessageOnly,
   .ApplicationNotOwner, .ApplicationNSFWChannelRequired]

/-- Substring search over character lists: does the needle occur as a prefix
of some suffix of the haystack? -/
def substrAux (needle : List Char) : List Char → Bool
  | [] => needle.isEmpty
  | c :: rest => needle.isPrefixOf (c :: rest) || substrAux needle rest

/-- `sub in hay` for strings. -/
def containsStr (hay sub : String) : Bool :=
  substrAux sub.data hay.data

/-- The `message` field an `_errors` entry contributes, in the spec's words:
the field's string if present, the empty string if missing. -/
def msgOrEmpty (x : List (String × EVal)) : String :=
  match lookupField "message" x with
  | some (.str m) => m
  | _ => ""

/-- The string carried by a string value (used to state which line each
flattened entry contributes). -/
def strOf : EVal → String
  | .str s => s
  | _ => ""

/-- `new_key = key + '.' + k if key else k`. -/
def combineKey (key k : String) : String :=
  if key = "" then k else key ++ "." ++ k

mutual

/-- No dict reachable through dict nesting has an empty-string key (an empty
key would merge its subtree's dotted paths with its siblings', because the
source drops the dot after an empty accumulated key). -/
def noEmptyKeysV : EVal → Bool
  | .edict f => noEmptyKeysL f
  | _ => true

/-- `noEmptyKeysV` over the fields of a dict. -/
def noEmptyKeysL : List (String × EVal) → Bool
  | [] => true
  | (k, v) :: rest => !(k == "") && noEmptyKeysV v && noEmptyKeysL rest

end

mutual

/-- Modelled from the spec: a value inside an input mapping "with no
`_errors` keys" whose leaves are "plain scalar text" — a string, or a dict
none of whose keys is `_errors` and all of whose values are again such. -/
def goodV : EVal → Bool
  | .str _ => true
  | .edict f => goodL f
  | _ => false

/-- `goodV` over the fields of a dict. -/
def goodL : List (String × EVal) → Bool
  | [] => true
  | (k, v) :: rest => !(k == "_errors") && goodV v && goodL rest

end

/-- Modelled from the spec: the expected output of flattening an `_errors`-free
mapping, "exactly one output entry per leaf scalar, with dotted key equal to
the path of keys joined by `.`", in encounter order. -/
def leafEntries (key : String) : List (String × EVal) → List (String × EVal)
  | [] => []
  | (k, v) :: rest =>
    match v with
    | .edict fields =>
      leafEntries (combineKey key k) fields ++ leafEntries key rest
    | _ => (combineKey key k, v) :: leafEntries key rest
termination_by l => sizeOf l
decreasing_by all_goals (simp_wf; try omega)

/-- A payload in which the dotted path `a.b` is produced both by a top-level
key `a.b` holding an `_errors` dict and by the leaf `b` of the sibling
mapping `a`. -/
def collidingErrorsDict : List (String × EVal) :=
  [("a.b", EVal.edict [("_errors", EVal.elist
      [EVal.edict [("message", EVal.str "too long")]])]),
   ("a", EVal.edict [("b", EVal.str "X")])]

/-- An `_errors`-free mapping with two scalar leaves whose dotted paths
collide: `{"a": {"b": "1"}, "a.b": "2"}`. -/
def collidingLeafDict : List (String × EVal) :=
  [("a", EVal.edict [("b", EVal.str "1")]),
   ("a.b", EVal.str "2")]

/-- A structured HTTP error payload with a `code`, a `message` and a
non-empty `errors` field. -/
def samplePayload : List (String × EVal) :=
  [("code", EVal.num 50035),
   ("message", EVal.str "Invalid Form Body"),
   ("errors", EVal.edict
     [("content", EVal.edict [("_errors", EVal.elist
        [EVal.edict [("message", EVal.str "too long")],
         EVal.edict [("message", EVal.str "bad word")]])])])]

/-- A 404 response handle. -/
def notFoundResp : Response :=
  { status := 404, reason := "Not Found" }

/-- The attribute state `HTTPException(notFoundResp, samplePayload)`
produces. -/
def samplePayloadState : HTTPExceptionState :=
  { status := 404
    code := EVal.num 50035
    text := "Invalid Form Body\nIn content: too long bad word"
    msg := "404 Not Found (error code: 50035): Invalid Form Body\nIn content: too long bad word" }

/-- A sibling mapping preceding the `_errors` entry in the short-circuit
instantiation. -/
def c1Pre : List (String × EVal) :=
  [("x", EVal.str "1")]

/-- The `_errors`-carrying value of the short-circuit instantiation. -/
def c1Sub : List (String × EVal) :=
  [("_errors", EVal.elist
    [EVal.edict [("message", EVal.str "too long")],
     EVal.edict [("message", EVal.str "bad word")]])]

/-- A sibling mapping following the `_errors` entry. -/
def c1Post : List (String × EVal) :=
  [("y", EVal.edict [("z", EVal.str "2")])]

/-- The `_errors` list elements of `c1Sub`, as dict field lists. -/
def c1Xs : List (List (String × EVal)) :=
  [[("message", EVal.str "too long")], [("message", EVal.str "bad word")]]

/-- The flattened output of `c1Pre ++ [("content", c1Sub)] ++ c1Post`. -/
def c1Out : List (String × EVal) :=
  [("x", EVal.str "1"), ("content", EVal.str "too long bad word"),
   ("y.z", EVal.str "2")]

/-- An `_errors`-free mapping with three string leaves and collision-free
dotted paths. -/
def c4Dict : List (String × EVal) :=
  [("a", EVal.edict [("b", EVal.str "1"), ("c", EVal.str "2")]),
   ("d", EVal.str "3")]

/-- The attribute state `HTTPException(notFoundResp, "x")` produces. -/
def c3State : HTTPExceptionState :=
  { status := 404
    code := EVal.num 0
    text := "x"
    msg := "404 Not Found (error code: 0): x" }

/-- A structured payload with a `code` and a `message` but no `errors`
field. -/
def c2PlainPayload : List (String × EVal) :=
  [("code", EVal.num 42), ("message", EVal.str "hi")]

/-- The attribute state `HTTPException(notFoundResp, c2PlainPayload)`
produces. -/
def c2PlainState : HTTPExceptionState :=
  { status := 404
    code := EVal.num 42
    text := "hi"
    msg := "404 Not Found (error code: 42): hi" }

theorem lastLookup_eq_none {l : List (String × EVal)} {k : String}
    (h : ∀ p ∈ l, p.1 ≠ k) : lastLookup l k = none := by
  induction l with
  | nil => rfl
  | cons p rest ih =>
    simp only [lastLookup]
    rw [ih (fun q hq => h q (List.mem_cons_of_mem _ hq))]
    simp [h p (List.mem_cons_self _ _)]

theorem lastLookup_mem {l : List (String × EVal)} {k : String} {v : EVal}
    (h : lastLookup l k = some v) : (k, v) ∈ l := by
  induction l with
  | nil => simp [lastLookup] at h
  | cons p rest ih =>
    simp only [lastLookup] at h
    cases hrest : lastLookup rest k with
    | some w =>
      rw [hrest] at h
      exact List.mem_cons_of_mem _ (ih (hrest.trans (by injection h; subst_vars; rfl)))
    | none =>
      rw [hrest] at h
      obtain ⟨a, b⟩ := p
      by_cases hp : a = k
      · subst hp
        simp at h
        subst h
        exact List.mem_cons_self _ _
      · simp [hp] at h

theorem dictOfItems_nodup {l : List (String × EVal)}
    (h : (l.map Prod.fst).Nodup) : dictOfItems l = l := by
  induction l with
  | nil => simp [dictOfItems]
  | cons p rest ih =>
    obtain ⟨k, v⟩ := p
    simp only [List.map_cons, List.nodup_cons] at h
    rw [dictOfItems]
    rw [lastLookup_eq_none (by
      intro q hq hqk
      exact h.1 (hqk ▸ List.mem_map_of_mem Prod.fst hq))]
    rw [List.filter_eq_self.mpr (by
      intro q hq
      have : q.1 ≠ k := by
        intro hqk
        exact h.1 (hqk ▸ List.mem_map_of_mem Prod.fst hq)
      simpa using this)]
    simp [ih h.2]

theorem mem_dictOfItems {l : List (String × EVal)} {p : String × EVal}
    (h : p ∈ dictOfItems l) : ∃ v, (p.1, v) ∈ l := by
  induction l using dictOfItems.induct with
  | case1 => simp [dictOfItems] at h
  | case2 k v rest ih =>
    rw [dictOfItems] at h
    rcases List.mem_cons.mp h with h1 | h2
    · cases hl : lastLookup rest k with
      | none => exact ⟨v, by rw [h1]; simp [hl]⟩
      | some w =>
        refine ⟨w, ?_⟩
        rw [h1]
        simp only [hl, Option.getD_some]
        exact List.mem_cons_of_mem _ (lastLookup_mem hl)
    · obtain ⟨w, hw⟩ := ih h2
      exact ⟨w, List.mem_cons_of_mem _ (List.mem_of_mem_filter hw)⟩

theorem append_dot_ne_empty (a b : String) : a ++ "." ++ b ≠ "" := by
  intro h
  have h1 := congrArg String.length h
  have h2 : (".").length = 1 := rfl
  simp [String.length_append] at h1
  omega

theorem dot_mem_append (a b : String) : '.' ∈ (a ++ "." ++ b).data := by
  simp [String.data_append]

theorem combineKey_ne_empty {key : String} (k : String) (hk : k ≠ "") :
    combineKey key k ≠ "" := by
  unfold combineKey
  by_cases h : key = ""
  · simpa [h] using hk
  · simp only [h, if_false]
    exact append_dot_ne_empty key k

theorem combineKey_of_ne {key : String} (hk : key ≠ "") (k : String) :
    combineKey key k = key ++ "." ++ k := by
  simp [combineKey, hk]

theorem noEmptyKeysL_cons {k : String} {v : EVal} {rest : List (String × EVal)}
    (h : noEmptyKeysL ((k, v) :: rest) = true) :
    k ≠ "" ∧ noEmptyKeysV v = true ∧ noEmptyKeysL rest = true := by
  simpa [noEmptyKeysL, Bool.and_eq_true, and_assoc] using h

theorem flattenKV_key_shape (key : String) (l : List (String × EVal)) :
    ∀ items, noEmptyKeysL l = true → flattenKV key l = some items →
      ∀ p ∈ items, ∃ q ∈ l, p.1 = combineKey key q.1 ∨
        ∃ r, p.1 = combineKey key q.1 ++ "." ++ r := by
  induction key, l using flattenKV.induct with
  | case1 key =>
    intro items _ hflat
    simp only [flattenKV, Option.some.injEq] at hflat
    subst hflat
    simp
  | case2 key k rest fields v hlook s t hrest hfe ih =>
    intro items hne hflat
    obtain ⟨hk, hv, hrest'⟩ := noEmptyKeysL_cons hne
    simp only [flattenKV, hlook, hfe, hrest, Option.some.injEq] at hflat
    subst hflat
    intro p hp
    rcases List.mem_cons.mp hp with hhd | htl
    · refine ⟨(k, EVal.edict fields), List.mem_cons_self _ _, Or.inl ?_⟩
      rw [hhd]
      simp [combineKey]
    · obtain ⟨q, hq, hdisj⟩ := ih t hrest' hrest p htl
      exact ⟨q, List.mem_cons_of_mem _ hq, hdisj⟩
  | case3 key k rest fields v hlook hfail ih =>
    intro items hne hflat
    cases hfe : flattenErrors v <;> cases hrest : flattenKV key rest <;>
      simp only [flattenKV, hlook, hfe, hrest] at hflat <;>
      first
      | exact Option.noConfusion hflat
      | exact (hfail _ _ hfe hrest).elim
  | case4 key k rest newKey fields hlook inner t hrest hinner ihF ihR =>
    intro items hne hflat
    obtain ⟨hk, hv, hrest'⟩ := noEmptyKeysL_cons hne
    have hite : newKey = (if key = "" then k else key ++ "." ++ k) := by
      simp only [newKey, dite_eq_ite]
    have hnk : newKey = combineKey key k := by
      rw [hite]
      rfl
    have hfields : noEmptyKeysL fields = true := by
      simpa [noEmptyKeysV] using hv
    simp only [flattenKV, hlook] at hflat
    rw [← hite] at hflat
    simp only [hinner, hrest, Option.some.injEq] at hflat
    subst hflat
    intro p hp
    rcases List.mem_append.mp hp with hin | htl
    · obtain ⟨v', hv'⟩ := mem_dictOfItems hin
      obtain ⟨q', hq', hdisj⟩ := ihF inner hfields hinner (p.1, v') hv'
      have hnkne : newKey ≠ "" := by
        rw [hnk]
        exact combineKey_ne_empty k hk
      refine ⟨(k, EVal.edict fields), List.mem_cons_self _ _, Or.inr ?_⟩
      rcases hdisj with heq | ⟨r, heq⟩
      · refine ⟨q'.1, ?_⟩
        rw [combineKey_of_ne hnkne] at heq
        rw [← hnk]
        exact heq
      · refine ⟨q'.1 ++ "." ++ r, ?_⟩
        rw [combineKey_of_ne hnkne] at heq
        rw [← hnk, heq]
        simp [String.append_assoc]
    · obtain ⟨q, hq, hdisj⟩ := ihR t hrest' hrest p htl
      exact ⟨q, List.mem_cons_of_mem _ hq, hdisj⟩
  | case5 key k rest newKey fields hlook hfail ihF ihR =>
    intro items hne hflat
    have hite : newKey = (if key = "" then k else key ++ "." ++ k) := by
      simp only [newKey, dite_eq_ite]
    simp only [flattenKV, hlook] at hflat
    rw [← hite] at hflat
    cases hinner : flattenKV newKey fields <;> cases hrest : flattenKV key rest <;>
      simp only [hinner, hrest] at hflat <;>
      first
      | exact Option.noConfusion hflat
      | exact (hfail _ _ hinner hrest).elim
  | case6 key k v rest t hrest hnd ih =>
    intro items hne hflat
    obtain ⟨hk, hv, hrest'⟩ := noEmptyKeysL_cons hne
    cases v with
    | edict fields => exact (hnd fields rfl).elim
    | str s =>
      simp only [flattenKV, hrest, Option.some.injEq] at hflat
      subst hflat
      intro p hp
      rcases List.mem_cons.mp hp with hhd | htl
      · exact ⟨(k, EVal.str s), List.mem_cons_self _ _,
          Or.inl (by rw [hhd]; simp [combineKey])⟩
      · obtain ⟨q, hq, hdisj⟩ := ih t hrest' hrest p htl
        exact ⟨q, List.mem_cons_of_mem _ hq, hdisj⟩
    | num n =>
      simp only [flattenKV, hrest, Option.some.injEq] at hflat
      subst hflat
      intro p hp
      rcases List.mem_cons.mp hp with hhd | htl
      · exact ⟨(k, EVal.num n), List.mem_cons_self _ _,
          Or.inl (by rw [hhd]; simp [combineKey])⟩
      · obtain ⟨q, hq, hdisj⟩ := ih t hrest' hrest p htl
        exact ⟨q, List.mem_cons_of_mem _ hq, hdisj⟩
    | elist xs =>
      simp only [flattenKV, hrest, Option.some.injEq] at hflat
      subst hflat
      intro p hp
      rcases List.mem_cons.mp hp with hhd | htl
      · exact ⟨(k, EVal.elist xs), List.mem_cons_self _ _,
          Or.inl (by rw [hhd]; simp [combineKey])⟩
      · obtain ⟨q, hq, hdisj⟩ := ih t hrest' hrest p htl
        exact ⟨q, List.mem_cons_of_mem _ hq, hdisj⟩
  | case7 key k v rest hrest hnd ih =>
    intro items hne hflat
    cases v with
    | edict fields => exact (hnd fields rfl).elim
    | str s =>
      simp only [flattenKV, hrest] at hflat
      exact Option.noConfusion hflat
    | num n =>
      simp only [flattenKV, hrest] at hflat
      exact Option.noConfusion hflat
    | elist xs =>
      simp only [flattenKV, hrest] at hflat
      exact Option.noConfusion hflat

theorem lookupField_dictOfItems_aux (n : Nat) :
    ∀ (a : List (String × EVal)), a.length ≤ n →
      ∀ (b : List (String × EVal)) (k : String) (v : EVal),
        (∀ p ∈ a, p.1 ≠ k) → (∀ p ∈ b, p.1 ≠ k) →
        lookupField k (dictOfItems (a ++ (k, v) :: b)) = some v := by
  induction n with
  | zero =>
    intro a hlen b k v _ hb
    have ha0 : a = [] := List.length_eq_zero.mp (Nat.le_zero.mp hlen)
    subst ha0
    simp only [List.nil_append]
    rw [dictOfItems]
    rw [lastLookup_eq_none hb]
    simp [lookupField]
  | succ n ih =>
    intro a hlen b k v ha hb
    match a with
    | [] =>
      simp only [List.nil_append]
      rw [dictOfItems]
      rw [lastLookup_eq_none hb]
      simp [lookupField]
    | (k0, v0) :: a' =>
      have hk0 : k0 ≠ k := ha (k0, v0) (List.mem_cons_self _ _)
      simp only [List.cons_append]
      rw [dictOfItems]
      rw [lookupField]
      simp only [hk0, if_neg (by simpa using hk0)]
      rw [List.filter_append, List.filter_cons]
      have hkeep : (decide ((k, v).1 ≠ k0)) = true := by
        simp
        exact fun hh => hk0 hh.symm
      rw [if_pos hkeep]
      apply ih
      · calc (List.filter (fun p => decide (p.1 ≠ k0)) a').length
            ≤ a'.length := List.length_filter_le _ _
          _ ≤ n := by simpa using Nat.le_of_succ_le_succ hlen
      · intro p hp
        exact ha p (List.mem_cons_of_mem _ (List.mem_of_mem_filter hp))
      · intro p hp
        exact hb p (List.mem_of_mem_filter hp)

theorem lookupField_dictOfItems {a b : List (String × EVal)} {k : String} {v : EVal}
    (ha : ∀ p ∈ a, p.1 ≠ k) (hb : ∀ p ∈ b, p.1 ≠ k) :
    lookupField k (dictOfItems (a ++ (k, v) :: b)) = some v :=
  lookupField_dictOfItems_aux a.length a (Nat.le_refl _) b k v ha hb

theorem flattenKV_append (key : String) (l₁ l₂ : List (String × EVal)) :
    flattenKV key (l₁ ++ l₂) =
      match flattenKV key l₁, flattenKV key l₂ with
      | some a, some b => some (a ++ b)
      | _, _ => none := by
  induction l₁ with
  | nil =>
    simp only [List.nil_append, flattenKV]
    cases flattenKV key l₂ <;> simp
  | cons p l₁' ih =>
    obtain ⟨k, v⟩ := p
    cases v with
    | str s =>
      simp only [List.cons_append, flattenKV, ih]
      cases flattenKV key l₁' <;> cases flattenKV key l₂ <;> simp
    | num m =>
      simp only [List.cons_append, flattenKV, ih]
      cases flattenKV key l₁' <;> cases flattenKV key l₂ <;> simp
    | elist xs =>
      simp only [List.cons_append, flattenKV, ih]
      cases flattenKV key l₁' <;> cases flattenKV key l₂ <;> simp
    | edict fields =>
      cases hlook : lookupField "_errors" fields with
      | some e =>
        simp only [List.cons_append, flattenKV, hlook, ih]
        cases flattenErrors e <;> cases flattenKV key l₁' <;>
          cases flattenKV key l₂ <;> simp
      | none =>
        simp only [List.cons_append, flattenKV, hlook, ih]
        cases flattenKV (if key = "" then k else key ++ "." ++ k) fields <;>
          cases flattenKV key l₁' <;> cases flattenKV key l₂ <;> simp


theorem joinMessages_eq {xs : List (List (String × EVal))}
    (h : ∀ x ∈ xs, lookupField "message" x = none ∨
      ∃ m, lookupField "message" x = some (EVal.str m)) :
    joinMessages (xs.map EVal.edict) = some (xs.map msgOrEmpty) := by
  induction xs with
  | nil => simp [joinMessages]
  | cons x rest ih =>
    have hrest := ih (fun y hy => h y (List.mem_cons_of_mem _ hy))
    rcases h x (List.mem_cons_self _ _) with hx | ⟨m, hx⟩
    · simp [joinMessages, getMessage, hx, msgOrEmpty, hrest]
    · simp [joinMessages, getMessage, hx, msgOrEmpty, hrest]

theorem noEmptyKeysL_append (l₁ l₂ : List (String × EVal)) :
    noEmptyKeysL (l₁ ++ l₂) = (noEmptyKeysL l₁ && noEmptyKeysL l₂) := by
  induction l₁ with
  | nil => simp [noEmptyKeysL]
  | cons p rest ih =>
    obtain ⟨k, v⟩ := p
    simp [noEmptyKeysL, ih, Bool.and_assoc]

theorem shortcircuit_main (pre post sub : List (String × EVal))
    (k : String) (xs : List (List (String × EVal)))
    (out : List (String × EVal))
    (hsub : lookupField "_errors" sub = some (EVal.elist (xs.map EVal.edict)))
    (hmsg : ∀ x ∈ xs, lookupField "message" x = none ∨
      ∃ m, lookupField "message" x = some (EVal.str m))
    (hne : noEmptyKeysL (pre ++ (k, EVal.edict sub) :: post) = true)
    (hpre : ∀ p ∈ pre, p.1 ≠ k) (hpost : ∀ p ∈ post, p.1 ≠ k)
    (hdot : '.' ∉ k.data)
    (hout : flatten_error_dict (pre ++ (k, EVal.edict sub) :: post) "" = some out) :
    lookupField k out = some (EVal.str (String.intercalate " " (xs.map msgOrEmpty))) := by
  have hfe : flattenErrors (EVal.elist (xs.map EVal.edict)) =
      some (String.intercalate " " (xs.map msgOrEmpty)) := by
    simp [flattenErrors, joinMessages_eq hmsg]
  have hne2 := hne
  rw [noEmptyKeysL_append, Bool.and_eq_true] at hne2
  have hnepre : noEmptyKeysL pre = true := hne2.1
  have hnepost : noEmptyKeysL post = true := (noEmptyKeysL_cons hne2.2).2.2
  cases hkv : flattenKV "" (pre ++ (k, EVal.edict sub) :: post) with
  | none => simp [flatten_error_dict, hkv] at hout
  | some items =>
    have hout' : dictOfItems items = out := by
      simpa [flatten_error_dict, hkv] using hout
    rw [flattenKV_append] at hkv
    cases ha : flattenKV "" pre with
    | none => rw [ha] at hkv; simp at hkv
    | some a =>
      rw [ha] at hkv
      cases hm : flattenKV "" ((k, EVal.edict sub) :: post) with
      | none => rw [hm] at hkv; simp at hkv
      | some m =>
        rw [hm] at hkv
        simp only [Option.some.injEq] at hkv
        cases hp : flattenKV "" post with
        | none =>
          simp only [flattenKV, hsub, hfe, hp] at hm
          exact Option.noConfusion hm
        | some t =>
          simp [flattenKV, hsub, hfe, hp] at hm
          have hitems : items =
              a ++ (k, EVal.str (String.intercalate " " (xs.map msgOrEmpty))) :: t := by
            rw [← hkv, ← hm]
          have hanot : ∀ p ∈ a, p.1 ≠ k := by
            intro p hpa
            obtain ⟨q, hq, hdisj⟩ := flattenKV_key_shape "" pre a hnepre ha p hpa
            rcases hdisj with heq | ⟨r, heq⟩
            · rw [heq]
              simpa [combineKey] using hpre q hq
            · rw [heq]
              intro hk
              apply hdot
              rw [← hk]
              exact dot_mem_append q.1 r
          have htnot : ∀ p ∈ t, p.1 ≠ k := by
            intro p hpt
            obtain ⟨q, hq, hdisj⟩ := flattenKV_key_shape "" post t hnepost hp p hpt
            rcases hdisj with heq | ⟨r, heq⟩
            · rw [heq]
              simpa [combineKey] using hpost q hq
            · rw [heq]
              intro hk
              apply hdot
              rw [← hk]
              exact dot_mem_append q.1 r
          rw [← hout', hitems]
          exact lookupField_dictOfItems hanot htnot

theorem goodL_cons {k : String} {v : EVal} {rest : List (String × EVal)}
    (h : goodL ((k, v) :: rest) = true) :
    k ≠ "_errors" ∧ goodV v = true ∧ goodL rest = true := by
  simpa [goodL, Bool.and_eq_true, and_assoc] using h

theorem goodL_lookup_errors {f : List (String × EVal)} (h : goodL f = true) :
    lookupField "_errors" f = none := by
  induction f with
  | nil => rfl
  | cons p rest ih =>
    obtain ⟨a, b⟩ := p
    obtain ⟨ha, _, hrest⟩ := goodL_cons h
    simp [lookupField, ha, ih hrest]

theorem flattenKV_good (key : String) (l : List (String × EVal)) :
    goodL l = true → ((leafEntries key l).map Prod.fst).Nodup →
    flattenKV key l = some (leafEntries key l) := by
  induction key, l using flattenKV.induct with
  | case1 key =>
    intro _ _
    simp [flattenKV, leafEntries]
  | case2 key k rest fields v hlook s t hrest hfe ih =>
    intro hgood _
    obtain ⟨_, hv, _⟩ := goodL_cons hgood
    rw [goodL_lookup_errors (by simpa [goodV] using hv)] at hlook
    exact Option.noConfusion hlook
  | case3 key k rest fields v hlook hfail ih =>
    intro hgood _
    obtain ⟨_, hv, _⟩ := goodL_cons hgood
    rw [goodL_lookup_errors (by simpa [goodV] using hv)] at hlook
    exact Option.noConfusion hlook
  | case4 key k rest newKey fields hlook inner t hrest hinner ihF ihR =>
    intro hgood hnodup
    obtain ⟨_, hv, hrest'⟩ := goodL_cons hgood
    have hite : newKey = (if key = "" then k else key ++ "." ++ k) := by
      simp only [newKey, dite_eq_ite]
    have hck : newKey = combineKey key k := hite
    have hfields : goodL fields = true := by simpa [goodV] using hv
    simp only [leafEntries, List.map_append] at hnodup
    have hnodupF : ((leafEntries newKey fields).map Prod.fst).Nodup := by
      rw [hck]
      exact hnodup.of_append_left
    have hnodupR : ((leafEntries key rest).map Prod.fst).Nodup :=
      hnodup.of_append_right
    have hinner2 := ihF hfields hnodupF
    have ht2 := ihR hrest' hnodupR
    have hinner3 : inner = leafEntries newKey fields :=
      Option.some.inj (hinner.symm.trans hinner2)
    have ht3 : t = leafEntries key rest :=
      Option.some.inj (hrest.symm.trans ht2)
    simp only [flattenKV, hlook]
    rw [← hite, hinner, hrest]
    simp only [leafEntries]
    rw [hinner3, ht3, dictOfItems_nodup (hinner3 ▸ hnodupF), hck]
  | case5 key k rest newKey fields hlook hfail ihF ihR =>
    intro hgood hnodup
    obtain ⟨_, hv, hrest'⟩ := goodL_cons hgood
    have hck : newKey = combineKey key k := by
      simp only [newKey, dite_eq_ite]
      rfl
    have hfields : goodL fields = true := by simpa [goodV] using hv
    simp only [leafEntries, List.map_append] at hnodup
    have hnodupF : ((leafEntries newKey fields).map Prod.fst).Nodup := by
      rw [hck]
      exact hnodup.of_append_left
    have hnodupR : ((leafEntries key rest).map Prod.fst).Nodup :=
      hnodup.of_append_right
    exact (hfail _ _ (ihF hfields hnodupF) (ihR hrest' hnodupR)).elim
  | case6 key k v rest t hrest hnd ih =>
    intro hgood hnodup
    obtain ⟨_, hv, hrest'⟩ := goodL_cons hgood
    cases v with
    | edict fields => exact (hnd fields rfl).elim
    | num n => simp [goodV] at hv
    | elist xs => simp [goodV] at hv
    | str s =>
      simp only [leafEntries, List.map_cons, List.nodup_cons] at hnodup
      have ht2 := ih hrest' hnodup.2
      have ht3 : t = leafEntries key rest :=
        Option.some.inj (hrest.symm.trans ht2)
      simp only [flattenKV, hrest, leafEntries, ht3, combineKey]
  | case7 key k v rest hrest hnd ih =>
    intro hgood hnodup
    obtain ⟨_, hv, hrest'⟩ := goodL_cons hgood
    cases v with
    | edict fields => exact (hnd fields rfl).elim
    | num n => simp [goodV] at hv
    | elist xs => simp [goodV] at hv
    | str s =>
      simp only [leafEntries, List.map_cons, List.nodup_cons] at hnodup
      have := ih hrest' hnodup.2
      rw [hrest] at this
      exact Option.noConfusion this

theorem leafEntries_str (key : String) (l : List (String × EVal)) :
    goodL l = true → ∀ p ∈ leafEntries key l, ∃ s, p.2 = EVal.str s := by
  induction key, l using leafEntries.induct with
  | case1 key => simp [leafEntries]
  | case2 key k fields rest ih1 ih2 =>
    intro hgood p hp
    obtain ⟨_, hv, hrest⟩ := goodL_cons hgood
    simp only [leafEntries] at hp
    rcases List.mem_append.mp hp with h1 | h2
    · exact ih1 (by simpa [goodV] using hv) p h1
    · exact ih2 hrest p h2
  | case3 key k v rest hnd ih =>
    intro hgood p hp
    obtain ⟨_, hv, hrest⟩ := goodL_cons hgood
    simp only [leafEntries] at hp
    rcases List.mem_cons.mp hp with h1 | h2
    · cases v with
      | edict fields => exact (hnd fields rfl).elim
      | num n => simp [goodV] at hv
      | elist xs => simp [goodV] at hv
      | str s => exact ⟨s, by rw [h1]⟩
    · exact ih hrest p h2

theorem mkState_spec {resp : Response} {code : EVal} {text : String}
    {st : HTTPExceptionState} (h : mkState resp code text = some st) :
    st.status = resp.status ∧ st.code = code ∧ st.text = text ∧
    ∃ cs, pyStr code = some cs ∧
      st.msg = toString resp.status ++ " " ++ resp.reason ++
        " (error code: " ++ cs ++ ")" ++
        (if text = "" then "" else ": " ++ text) := by
  cases hc : pyStr code with
  | none => simp [mkState, hc] at h
  | some cs =>
    simp only [mkState, hc, Option.map_some', Option.some.injEq] at h
    subst h
    exact ⟨rfl, rfl, rfl, cs, rfl, rfl⟩

theorem make_mkState {resp : Response} {message : Option PyMessage}
    {st : HTTPExceptionState} (h : HTTPException.make resp message = some st) :
    ∃ code text, mkState resp code text = some st := by
  unfold HTTPException.make at h
  repeat' split at h
  all_goals
    first
    | exact Option.noConfusion h
    | exact ⟨_, _, h⟩

theorem joinLines_eq {items : List (String × EVal)}
    (h : ∀ p ∈ items, ∃ s, p.2 = EVal.str s) :
    joinLines items =
      some (items.map (fun t => "In " ++ t.1 ++ ": " ++ strOf t.2)) := by
  induction items with
  | nil => simp [joinLines]
  | cons p rest ih =>
    obtain ⟨s, hs⟩ := h p (List.mem_cons_self _ _)
    have hrest := ih (fun q hq => h q (List.mem_cons_of_mem _ hq))
    simp [joinLines, hs, strOf, hrest, pyStr]

/-- Claim C2 (amended): for every structured-payload construction that
succeeds, the stored numeric error code equals the payload's `code` field
(0 when absent); with a string (or absent, read as empty) `message` field
and no `errors` field the stored text is exactly that base text; and when a
non-empty mapping `errors` field is present whose flattened entries are
strings, the stored text is the base text followed by one line per
flattened entry, each line being `In {path}: {joined-message}` — the source
prefixes every line with `In `, which the original claim omitted. -/
theorem c2_http_payload_text {resp : Response} {d : List (String × EVal)}
    {st : HTTPExceptionState}
    (hst : HTTPException.make resp (some (.payload d)) = some st) :
    st.code = (lookupField "code" d).getD (EVal.num 0) ∧
    (∀ base, (lookupField "message" d = some (EVal.str base) ∨
        (lookupField "message" d = none ∧ base = "")) →
      lookupField "errors" d = none → st.text = base) ∧
    (∀ base (ef items : List (String × EVal)),
      (lookupField "message" d = some (EVal.str base) ∨
        (lookupField "message" d = none ∧ base = "")) →
      lookupField "errors" d = some (EVal.edict ef) →
      ef ≠ [] →
      flatten_error_dict ef "" = some items →
      (∀ p ∈ items, ∃ s, p.2 = EVal.str s) →
      st.text = base ++ "\n" ++ String.intercalate "\n"
        (items.map (fun t => "In " ++ t.1 ++ ": " ++ strOf t.2))) := by
  refine ⟨?_, ?_, ?_⟩
  · simp only [HTTPException.make] at hst
    repeat' split at hst
    all_goals
      first
      | exact Option.noConfusion hst
      | exact (mkState_spec hst).2.1
  · intro base hbase herr
    simp only [HTTPException.make] at hst
    rcases hbase with hb | ⟨hb, hbase0⟩
    · simp only [hb, herr] at hst
      exact (mkState_spec hst).2.2.1
    · subst hbase0
      simp only [hb, herr] at hst
      exact (mkState_spec hst).2.2.1
  · intro base ef items hbase herr hef hflat hstr
    have hlines := joinLines_eq hstr
    have htr : truthy (EVal.edict ef) = true := by simp [truthy, hef]
    simp only [HTTPException.make] at hst
    rcases hbase with hb | ⟨hb, hbase0⟩
    · simp only [hb, herr, htr, if_true, hflat, hlines] at hst
      exact (mkState_spec hst).2.2.1
    · subst hbase0
      simp only [hb, herr, htr, if_true, hflat, hlines] at hst
      exact (mkState_spec hst).2.2.1

/-- Claim C1 (amended): whenever a key of the input mapping holds a dict
containing `_errors` (a list of objects whose `message` fields are strings
or missing), and that key's dotted path is not also produced by another
branch (keys are distinct, non-empty at every level, and the key itself is
dot-free), the flattened output maps the key to the space-joined `message`
fields (missing fields contribute the empty string), and the walk does not
descend further into that value: flattening that entry alone yields exactly
the one joined entry.  In particular the claim's concrete example holds. -/
theorem c1_flatten_errors_short_circuit
    (pre post sub : List (String × EVal)) (k : String)
    (xs : List (List (String × EVal))) (out : List (String × EVal))
    (hsub : lookupField "_errors" sub = some (EVal.elist (xs.map EVal.edict)))
    (hmsg : ∀ x ∈ xs, lookupField "message" x = none ∨
      ∃ m, lookupField "message" x = some (EVal.str m))
    (hne : noEmptyKeysL (pre ++ (k, EVal.edict sub) :: post) = true)
    (hpre : ∀ p ∈ pre, p.1 ≠ k) (hpost : ∀ p ∈ post, p.1 ≠ k)
    (hdot : '.' ∉ k.data)
    (hout : flatten_error_dict (pre ++ (k, EVal.edict sub) :: post) "" = some out) :
    lookupField k out =
      some (EVal.str (String.intercalate " " (xs.map msgOrEmpty))) ∧
    flatten_error_dict [(k, EVal.edict sub)] "" =
      some [(k, EVal.str (String.intercalate " " (xs.map msgOrEmpty)))] ∧
    flatten_error_dict
      [("content", EVal.edict [("_errors", EVal.elist
        [EVal.edict [("message", EVal.str "too long")],
         EVal.edict [("message", EVal.str "bad word")]])])] "" =
      some [("content", EVal.str "too long bad word")] := by
  refine ⟨shortcircuit_main pre post sub k xs out hsub hmsg hne hpre hpost hdot hout,
    ?_, ?_⟩
  · have hfe : flattenErrors (EVal.elist (xs.map EVal.edict)) =
        some (String.intercalate " " (xs.map msgOrEmpty)) := by
      simp [flattenErrors, joinMessages_eq hmsg]
    simp [flatten_error_dict, flattenKV, hsub, hfe, dictOfItems, lastLookup]
  · simp [flatten_error_dict, flattenKV, flattenErrors, joinMessages, getMessage,
      lookupField, dictOfItems, lastLookup]
    decide

/-- Claim C1 counterexample: the claim as stated fails when another branch
produces the same dotted path after the `_errors` entry — in
`{"a.b": {"_errors": [{"message": "too long"}]}, "a": {"b": "X"}}` the
output maps `a.b` to `X`, not to the joined message `too long`. -/
theorem c1_counterexample :
    flatten_error_dict collidingErrorsDict "" = some [("a.b", EVal.str "X")] ∧
    some (EVal.str "X") ≠ some (EVal.str "too long") := by
  constructor
  · simp [flatten_error_dict, flattenKV, flattenErrors, joinMessages, getMessage,
      lookupField, dictOfItems, lastLookup, collidingErrorsDict]
  · simp

/-- Claim C1 witness: the short-circuit theorem applied to a concrete
three-entry mapping. -/
theorem c1_witness :
    lookupField "content" c1Out =
      some (EVal.str (String.intercalate " " (c1Xs.map msgOrEmpty))) ∧
    flatten_error_dict [("content", EVal.edict c1Sub)] "" =
      some [("content", EVal.str (String.intercalate " " (c1Xs.map msgOrEmpty)))] ∧
    flatten_error_dict
      [("content", EVal.edict [("_errors", EVal.elist
        [EVal.edict [("message", EVal.str "too long")],
         EVal.edict [("message", EVal.str "bad word")]])])] "" =
      some [("content", EVal.str "too long bad word")] :=
  c1_flatten_errors_short_circuit c1Pre c1Post c1Sub "content" c1Xs c1Out
    (by rfl)
    (by
      intro x hx
      simp [c1Xs] at hx
      rcases hx with rfl | rfl
      · exact Or.inr ⟨"too long", rfl⟩
      · exact Or.inr ⟨"bad word", rfl⟩)
    (by simp [c1Pre, c1Sub, c1Post, noEmptyKeysL, noEmptyKeysV])
    (by
      intro p hp
      simp [c1Pre] at hp
      rw [hp]
      decide)
    (by
      intro p hp
      simp [c1Post] at hp
      rw [hp]
      decide)
    (by decide)
    (by
      simp [c1Pre, c1Sub, c1Post, c1Out, flatten_error_dict, flattenKV,
        flattenErrors, joinMessages, getMessage, lookupField, dictOfItems,
        lastLookup]
      decide)

/-- Claim C2 counterexample: for the concrete payload `samplePayload` the
stored text is `Invalid Form Body\nIn content: too long bad word`, not the
`path: joined-message` line the claim prescribes. -/
theorem c2_counterexample :
    HTTPException.make notFoundResp (some (.payload samplePayload)) =
      some samplePayloadState ∧
    samplePayloadState.text ≠
      "Invalid Form Body" ++ "\n" ++ "content: too long bad word" := by
  constructor
  · simp [HTTPException.make, mkState, samplePayload, notFoundResp,
      samplePayloadState, flatten_error_dict, flattenKV, flattenErrors,
      joinMessages, getMessage, lookupField, dictOfItems, lastLookup, truthy,
      pyStr, joinLines]
    decide
  · decide

/-- Claim C2 witness: the payload theorem applied to `samplePayload` (code
and `In`-prefixed error lines) and to an errors-free payload
`{"code": 42, "message": "hi"}` (code and bare base text). -/
theorem c2_witness :
    (samplePayloadState.code =
      (lookupField "code" samplePayload).getD (EVal.num 0) ∧
    samplePayloadState.text = "Invalid Form Body" ++ "\n" ++
      String.intercalate "\n"
        ([("content", EVal.str "too long bad word")].map
          (fun t => "In " ++ t.1 ++ ": " ++ strOf t.2))) ∧
    c2PlainState.code =
      (lookupField "code" c2PlainPayload).getD (EVal.num 0) ∧
    c2PlainState.text = "hi" := by
  have hmk : HTTPException.make notFoundResp (some (.payload samplePayload)) =
      some samplePayloadState := by
    simp [HTTPException.make, mkState, samplePayload, notFoundResp,
      samplePayloadState, flatten_error_dict, flattenKV, flattenErrors,
      joinMessages, getMessage, lookupField, dictOfItems, lastLookup, truthy,
      pyStr, joinLines]
    decide
  have h := c2_http_payload_text hmk
  have hmk2 : HTTPException.make notFoundResp (some (.payload c2PlainPayload)) =
      some c2PlainState := by
    simp [HTTPException.make, mkState, c2PlainPayload, notFoundResp,
      c2PlainState, lookupField, pyStr]
    decide
  have h2 := c2_http_payload_text hmk2
  refine ⟨⟨h.1, ?_⟩, h2.1, h2.2.1 "hi" (Or.inl (by rfl)) (by rfl)⟩
  exact h.2.2 "Invalid Form Body"
    [("content", EVal.edict [("_errors", EVal.elist
      [EVal.edict [("message", EVal.str "too long")],
       EVal.edict [("message", EVal.str "bad word")]])])]
    [("content", EVal.str "too long bad word")]
    (Or.inl (by rfl))
    (by rfl)
    (by simp)
    (by
      simp [samplePayload, flatten_error_dict, flattenKV, flattenErrors,
        joinMessages, getMessage, lookupField, dictOfItems, lastLookup]
      decide)
    (by
      intro p hp
      simp at hp
      rw [hp]
      exact ⟨"too long bad word", rfl⟩)

/-- Claim C3: the final display message of every successfully constructed
HTTP exception is `{status} {reason} (error code: {code})`, with
`: {text}` appended exactly when the stored text is non-empty; a plain
string (or absent) message stores code 0 and that string (or the empty
string) as text; and the concrete empty-string 404 case produces exactly
`404 Not Found (error code: 0)`. -/
theorem c3_display_format :
    (∀ (resp : Response) (message : Option PyMessage) (st : HTTPExceptionState),
      HTTPException.make resp message = some st →
      ∃ cs, pyStr st.code = some cs ∧
        st.msg = toString st.status ++ " " ++ resp.reason ++
          " (error code: " ++ cs ++ ")" ++
          (if st.text = "" then "" else ": " ++ st.text)) ∧
    (∀ (resp : Response) (s : String) (st : HTTPExceptionState),
      HTTPException.make resp (some (.str s)) = some st →
      st.code = EVal.num 0 ∧ st.text = s) ∧
    (∀ (resp : Response) (st : HTTPExceptionState),
      HTTPException.make resp none = some st →
      st.code = EVal.num 0 ∧ st.text = "") ∧
    (HTTPException.make notFoundResp (some (.str ""))).map
      HTTPExceptionState.msg = some "404 Not Found (error code: 0)" := by
  refine ⟨?_, ?_, ?_, ?_⟩
  · intro resp message st h
    obtain ⟨code, text, hmk⟩ := make_mkState h
    obtain ⟨hstatus, hcode, htext, cs, hcs, hmsg⟩ := mkState_spec hmk
    refine ⟨cs, ?_, ?_⟩
    · rw [hcode]
      exact hcs
    · rw [hmsg, htext, hstatus]
  · intro resp s st h
    unfold HTTPException.make at h
    obtain ⟨_, hcode, htext, _⟩ := mkState_spec h
    refine ⟨hcode, ?_⟩
    rw [htext]
    by_cases hs : s = "" <;> simp [pyOrStr, hs]
  · intro resp st h
    unfold HTTPException.make at h
    obtain ⟨_, hcode, htext, _⟩ := mkState_spec h
    exact ⟨hcode, htext⟩
  · simp [HTTPException.make, mkState, notFoundResp, pyOrStr, pyStr]
    decide

/-- Claim C3 witness: the plain-string clause applied to message `"x"` on a
404 response. -/
theorem c3_witness : c3State.code = EVal.num 0 ∧ c3State.text = "x" :=
  c3_display_format.2.1 notFoundResp "x" c3State
    (by
      simp [HTTPException.make, mkState, notFoundResp, c3State, pyOrStr, pyStr]
      decide)

/-- Claim C5: an application error (and, by inheritance, every check-failure
variant) constructed with a message stores that message with `@everyone` and
`@here` escaped by a zero-width space, in the source's replace order; with
no message it is a field-less marker storing nothing; and the escaping does
not apply to HTTP errors, whose message passes mentions through verbatim. -/
theorem c5_mention_escaping :
    (∀ m, ApplicationError.make (some m) = some (escapeMentions m)) ∧
    (∀ m, escapeMentions m =
      pyReplace (pyReplace m "@everyone" "@\u200beveryone") "@here" "@\u200bhere") ∧
    ApplicationError.make none = none ∧
    ApplicationCheckFailure.make = ApplicationError.make ∧
    ApplicationError.make (some "Hey @everyone and @here") =
      some "Hey @\u200beveryone and @\u200bhere" ∧
    (HTTPException.make notFoundResp (some (.str "@everyone"))).map
      HTTPExceptionState.msg = some "404 Not Found (error code: 0): @everyone" ∧
    containsStr "404 Not Found (error code: 0): @everyone" "@\u200beveryone" = false := by
  refine ⟨fun m => rfl, fun m => rfl, rfl, rfl, by decide, ?_, by decide⟩
  simp [HTTPException.make, mkState, notFoundResp, pyOrStr, pyStr]
  decide

/-- Claim C6 counterexample: an explicit close code of `0` is provided yet
does not take precedence — Python's `or` treats it as falsy, so the
socket-reported code wins. -/
theorem c6_counterexample :
    (ConnectionClosed.make ⟨some 1000⟩ none (some 0)).code = 1000 ∧
    (1000 : Int) ≠ 0 := by
  constructor
  · rfl
  · decide

/-- Claim C6 (amended): the resolved close code is the explicit code when
provided and non-zero, else the socket's close code when present and
non-zero, else `-1`; the stored reason is always empty; and the message is
`Shard ID {shard_id} WebSocket closed with {code}` with the resolved code. -/
theorem c6_connection_closed
    (socket : ClientWebSocketResponse) (shard_id code : Option Int) :
    (ConnectionClosed.make socket shard_id code).reason = "" ∧
    (ConnectionClosed.make socket shard_id code).msg =
      "Shard ID " ++ optIntStr shard_id ++ " WebSocket closed with " ++
        toString (ConnectionClosed.make socket shard_id code).code ∧
    (∀ c, code = some c → c ≠ 0 →
      (ConnectionClosed.make socket shard_id code).code = c) ∧
    ((code = none ∨ code = some 0) →
      ∀ s, socket.close_code = some s → s ≠ 0 →
      (ConnectionClosed.make socket shard_id code).code = s) ∧
    ((code = none ∨ code = some 0) →
      (socket.close_code = none ∨ socket.close_code = some 0) →
      (ConnectionClosed.make socket shard_id code).code = -1) := by
  refine ⟨rfl, rfl, ?_, ?_, ?_⟩
  · intro c hc hc0
    subst hc
    simp [ConnectionClosed.make, pyOrInt, hc0]
  · rintro (rfl | rfl) s hs hs0 <;>
      simp [ConnectionClosed.make, pyOrInt, hs, hs0]
  · rintro (rfl | rfl) (hs | hs) <;>
      simp [ConnectionClosed.make, pyOrInt, hs]

/-- Claim C6 witness: explicit code absent and socket code `0` resolve to
`-1` with empty reason. -/
theorem c6_witness :
    (ConnectionClosed.make ⟨some 0⟩ (some 7) none).code = -1 ∧
    (ConnectionClosed.make ⟨some 0⟩ (some 7) none).reason = "" :=
  ⟨(c6_connection_closed ⟨some 0⟩ (some 7) none).2.2.2.2 (Or.inl rfl)
    (Or.inr rfl),
   (c6_connection_closed ⟨some 0⟩ (some 7) none).1⟩

/-- Claim C7: the missing-any-role and bot-missing-any-role messages quote
every role with single quotes and join them with the item itself for one
item (empty for zero), `A or B` for two, and Oxford style with `, or `
before the last for three or more; in particular `["a","b","c"]` yields a
message containing `'a', 'b', or 'c'`. -/
theorem c7_role_list_join :
    joinOrRoles [] = "" ∧
    (∀ a, joinOrRoles [a] = a) ∧
    (∀ a b, joinOrRoles [a, b] = a ++ " or " ++ b) ∧
    (∀ l, l.length > 2 → joinOrRoles l =
      String.intercalate ", " l.dropLast ++ ", or " ++ pyLast l) ∧
    (∀ roles, ApplicationMissingAnyRole.make roles =
      some (escapeMentions
        ("You are missing at least one of the required roles: " ++
          joinOrRoles (roles.map quoteRole)))) ∧
    (∀ roles, ApplicationBotMissingAnyRole.make roles =
      some (escapeMentions
        ("Bot is missing at least one of the required roles: " ++
          joinOrRoles (roles.map quoteRole)))) ∧
    containsStr ((ApplicationMissingAnyRole.make ["a", "b", "c"]).getD "")
      "'a', 'b', or 'c'" = true ∧
    containsStr ((ApplicationBotMissingAnyRole.make ["a", "b", "c"]).getD "")
      "'a', 'b', or 'c'" = true := by
  refine ⟨rfl, fun a => rfl, fun a b => rfl, ?_, fun roles => rfl,
    fun roles => rfl, by decide, by decide⟩
  intro l hl
  simp [joinOrRoles, hl]

/-- Claim C7 witness: the three-item Oxford join applied to the quoted
roles. -/
theorem c7_witness :
    (["'a'", "'b'", "'c'"] : List String).length > 2 ∧
    joinOrRoles ["'a'", "'b'", "'c'"] =
      String.intercalate ", " (["'a'", "'b'", "'c'"] : List String).dropLast ++
        ", or " ++ pyLast ["'a'", "'b'", "'c'"] :=
  ⟨by decide, c7_role_list_join.2.2.2.1 _ (by decide)⟩

/-- Claim C8: permission names are transformed by replacing underscores with
spaces and `guild` with `server`, then title-casing, and joined with `and`
(`A and B` for two, Oxford `, and ` for three or more); in particular
`["manage_guild"]` produces a message containing `Manage Server` and not
`Manage Guild`. -/
theorem c8_permission_transform :
    transformPerm "manage_guild" = "Manage Server" ∧
    (∀ p, transformPerm p =
      pyTitle (pyReplace (pyReplace p "_" " ") "guild" "server")) ∧
    (∀ a b, joinAndPerms [a, b] = a ++ " and " ++ b) ∧
    (∀ l, l.length > 2 → joinAndPerms l =
      String.intercalate ", " l.dropLast ++ ", and " ++ pyLast l) ∧
    (∀ perms, ApplicationMissingPermissions.make perms =
      some (escapeMentions ("You are missing " ++
        joinAndPerms (perms.map transformPerm) ++
        " permission(s) to run this command."))) ∧
    (∀ perms, ApplicationBotMissingPermissions.make perms =
      some (escapeMentions ("Bot requires " ++
        joinAndPerms (perms.map transformPerm) ++
        " permission(s) to run this command."))) ∧
    containsStr ((ApplicationMissingPermissions.make ["manage_guild"]).getD "")
      "Manage Server" = true ∧
    containsStr ((ApplicationMissingPermissions.make ["manage_guild"]).getD "")
      "Manage Guild" = false ∧
    containsStr ((ApplicationBotMissingPermissions.make ["manage_guild"]).getD "")
      "Manage Server" = true := by
  refine ⟨by decide, fun p => rfl, fun a b => rfl, ?_, fun perms => rfl,
    fun perms => rfl, by decide, by decide, by decide⟩
  intro l hl
  simp [joinAndPerms, hl]

/-- Claim C8 witness: the three-item `and` join applied to transformed
names. -/
theorem c8_witness :
    (["Send Messages", "Manage Server", "Ban Members"] : List String).length > 2 ∧
    joinAndPerms ["Send Messages", "Manage Server", "Ban Members"] =
      String.intercalate ", "
        (["Send Messages", "Manage Server", "Ban Members"] : List String).dropLast ++
        ", and " ++ pyLast ["Send Messages", "Manage Server", "Ban Members"] :=
  ⟨by decide, c8_permission_transform.2.2.2.1 _ (by decide)⟩

/-- Claim C9: every kind in the Application-error family (the check-failure
kind and all its variants) is a subclass of the check-failure kind and of
the application-error kind, and every kind of the taxonomy descends from
the single base root `DiscordException`. -/
theorem c9_kind_discrimination :
    (∀ k ∈ applicationFamily,
      isSubclassOf k .ApplicationCheckFailure = true ∧
      isSubclassOf k .ApplicationError = true) ∧
    (∀ k : ErrKind, isSubclassOf k .DiscordException = true) := by
  decide

/-- Claim C9 witness: the missing-role kind is an instance of both
supertypes. -/
theorem c9_witness :
    isSubclassOf .ApplicationMissingRole .ApplicationCheckFailure = true ∧
    isSubclassOf .ApplicationMissingRole .ApplicationError = true :=
  c9_kind_discrimination.1 .ApplicationMissingRole (by decide)

/-- Claim C10: for the no-private-message and private-message-only errors an
empty caller-supplied message falls back to the respective default exactly
like an absent message, and a non-empty message overrides the default
(stored mention-escaped, as for the whole family). -/
theorem c10_private_message_defaults :
    ApplicationNoPrivateMessage.make (some "") =
      ApplicationNoPrivateMessage.make none ∧
    ApplicationNoPrivateMessage.make none =
      some "This command cannot be used in private messages." ∧
    (∀ m, m ≠ "" → ApplicationNoPrivateMessage.make (some m) =
      some (escapeMentions m)) ∧
    ApplicationPrivateMessageOnly.make (some "") =
      ApplicationPrivateMessageOnly.make none ∧
    ApplicationPrivateMessageOnly.make none =
      some "This command can only be used in private messages." ∧
    (∀ m, m ≠ "" → ApplicationPrivateMessageOnly.make (some m) =
      some (escapeMentions m)) := by
  refine ⟨by decide, by decide, ?_, by decide, by decide, ?_⟩ <;>
  · intro m hm
    simp [ApplicationNoPrivateMessage.make, ApplicationPrivateMessageOnly.make,
      ApplicationCheckFailure.make, ApplicationError.make, pyOrStr, hm]

/-- Claim C10 witness: a non-empty message overrides the default. -/
theorem c10_witness :
    ApplicationNoPrivateMessage.make (some "nope") =
      some (escapeMentions "nope") :=
  c10_private_message_defaults.2.2.1 "nope" (by decide)

/-- Claim C4 counterexample: the claim as stated fails when two leaves share
a dotted path — `{"a": {"b": "1"}, "a.b": "2"}` has two scalar leaves but
flattening yields a single entry (the later value overrides the earlier at
the shared key `a.b`). -/
theorem c4_counterexample :
    flatten_error_dict collidingLeafDict "" = some [("a.b", EVal.str "2")] ∧
    (leafEntries "" collidingLeafDict).length = 2 ∧
    ([("a.b", EVal.str "2")] : List (String × EVal)).length ≠ 2 := by
  refine ⟨?_, ?_, by decide⟩
  · simp [flatten_error_dict, flattenKV, lookupField, dictOfItems, lastLookup,
      collidingLeafDict]
  · simp [leafEntries, collidingLeafDict, combineKey]

/-- Claim C4 (amended): for an input mapping with no `_errors` keys whose
values are strings or nested such mappings, and whose leaves' dotted paths
are pairwise distinct, flattening returns exactly the per-leaf entries in
encounter order — one entry per scalar leaf, keyed by the path of keys
joined with `.`, with a string value. -/
theorem c4_flatten_leaves (d : List (String × EVal))
    (hgood : goodL d = true)
    (hnodup : ((leafEntries "" d).map Prod.fst).Nodup) :
    flatten_error_dict d "" = some (leafEntries "" d) ∧
    ∀ p ∈ leafEntries "" d, ∃ s, p.2 = EVal.str s := by
  constructor
  · rw [flatten_error_dict, flattenKV_good "" d hgood hnodup]
    simp [dictOfItems_nodup hnodup]
  · exact leafEntries_str "" d hgood

/-- Claim C4 witness: the leaf theorem applied to a three-leaf mapping with
distinct dotted paths. -/
theorem c4_witness :
    flatten_error_dict c4Dict "" = some (leafEntries "" c4Dict) ∧
    ∀ p ∈ leafEntries "" c4Dict, ∃ s, p.2 = EVal.str s :=
  c4_flatten_leaves c4Dict
    (by simp [goodL, goodV, c4Dict])
    (by
      have h : leafEntries "" c4Dict =
          [("a.b", EVal.str "1"), ("a.c", EVal.str "2"), ("d", EVal.str "3")] := by
        simp [leafEntries, c4Dict, combineKey]
      rw [h]
      decide)
